import Mathlib

/-!
A verification development for `src/libcaf_io/src/default_multiplexer.cpp`:
the single-threaded I/O multiplexer of the actor framework.  The C++ code is
shallowly embedded below: pure fragments become Lean functions, stateful
fragments become explicit state passing over small structures.  File
descriptors and handler identities are `Nat`, byte buffers are `List Nat`,
interest masks are `Nat` bit sets.
-/

namespace Caf

/-- The `operation` enum (`read`, `write`, `propagate_error`). -/
inductive Operation where
  | read
  | write
  | propagateError
deriving DecidableEq, Repr

/-- Modelled from the spec: the platform header defining `input_mask`,
`output_mask` and `error_mask` is not part of the sources; the spec describes
the interest mask as "a bit set over {read, write, error}", so we fix three
disjoint bits. -/
def input_mask : Nat := 1

/-- Modelled from the spec: the write-interest bit (see `input_mask`). -/
def output_mask : Nat := 2

/-- Modelled from the spec: the error bit (see `input_mask`). -/
def error_mask : Nat := 4

/-- The source's `add_flag(op, bf)`: sets the bit for `op`; `propagate_error` is logged as
unexpected and the function falls through to `return 0`. -/
def add_flag (op : Operation) (bf : Nat) : Nat :=
  match op with
  | .read => bf ||| input_mask
  | .write => bf ||| output_mask
  | .propagateError => 0

/-- The source's `del_flag(op, bf)`: clears the bit for `op` (the C++ `bf & ~mask`, written
complement-free on `Nat` as `bf ^^^ (bf &&& mask)`); `propagate_error` is
logged as unexpected and the function falls through to `return 0`. -/
def del_flag (op : Operation) (bf : Nat) : Nat :=
  match op with
  | .read => bf ^^^ (bf &&& input_mask)
  | .write => bf ^^^ (bf &&& output_mask)
  | .propagateError => 0

/-! ## Poll backend registration table (`default_multiplexer::handle`)

The poll backend keeps two lock-step, fd-sorted vectors: `pollset_`
(`pollfd` entries) and `shadow_` (handler pointers); `handle` asserts
`pollset_.size() == shadow_.size()` and always edits both at the same
index, so we represent the pair as a single list of entries carrying
`fd`, `events` and the handler pointer. -/

/-- One lock-step slot of `pollset_`/`shadow_`: the pollfd's `fd` and `events`
together with the handler pointer stored in the shadow vector (`none` models a
null `event_handler*`). -/
structure PollEntry where
  fd : Nat
  events : Nat
  ptr : Option Nat
deriving DecidableEq, Repr

/-- A pending registration event (`default_multiplexer::event`):
`(fd, new_mask, handler-or-null)`. -/
structure PollEvent where
  fd : Nat
  mask : Nat
  ptr : Option Nat
deriving DecidableEq, Repr

/-- The list surgery of the poll-backend `handle`: a lower-bound scan over the
fd-sorted table, then append / erase / update-in-place / insert exactly as the
source does.  Note that the final `else` branch (`e.fd` smaller than some
registered fd but itself unregistered) inserts the new element even when
`e.mask == 0`. -/
def pollApply (e : PollEvent) : List PollEntry → List PollEntry
  | [] => if e.mask ≠ 0 then [⟨e.fd, e.mask, e.ptr⟩] else []
  | x :: xs =>
    if x.fd < e.fd then
      x :: pollApply e xs
    else if x.fd = e.fd then
      if e.mask = 0 then xs else ⟨x.fd, e.mask, x.ptr⟩ :: xs
    else
      ⟨e.fd, e.mask, e.ptr⟩ :: x :: xs

/-- Reactor state of the poll backend: the registration table plus each
handler's stored interest mask (`event_handler::eventbf_`, indexed by handler
identity). -/
structure PollState where
  table : List PollEntry
  eventbf : Nat → Nat

/-- The source's `default_multiplexer::handle` (poll backend): commit `e.mask` into the
handler's `eventbf` (when the event carries a handler) and splice the sorted
table.  The `removed_from_loop` callbacks only touch the handler's manager
references and are modelled in the stream transition system below. -/
def pollHandle (st : PollState) (e : PollEvent) : PollState :=
  { table := pollApply e st.table
    eventbf :=
      match e.ptr with
      | some p => Function.update st.eventbf p e.mask
      | none => st.eventbf }

/-- Applying a whole pending batch (`for (auto& me : events_) handle(me);`)
in insertion order. -/
def pollHandleAll (st : PollState) (es : List PollEvent) : PollState :=
  es.foldl pollHandle st

/-- The table is strictly sorted by fd (the source keeps both vectors
fd-sorted and uses `lower_bound`). -/
def TableSorted (t : List PollEntry) : Prop :=
  t.Pairwise (fun a b => a.fd < b.fd)

/-- Every registered entry is consistent with its handler: nonzero mask, the
handler pointer is non-null, the entry sits at the handler's fd (`hfd` maps
handler identity to its `fd()`), and the entry's registered mask equals the
handler's stored mask. -/
def EntriesOk (hfd : Nat → Nat) (st : PollState) : Prop :=
  ∀ en ∈ st.table,
    en.events ≠ 0 ∧ ∃ p, en.ptr = some p ∧ hfd p = en.fd ∧ st.eventbf p = en.events

/-- Every handler with a nonzero stored mask is registered in the table. -/
def RegisteredOk (hfd : Nat → Nat) (st : PollState) : Prop :=
  ∀ p, st.eventbf p ≠ 0 → ∃ en ∈ st.table, en.ptr = some p ∧ en.fd = hfd p

/-- The C1 invariant: the readiness primitive's registered set equals the
union of the handlers' interest masks, and each handler's stored mask equals
the last committed mask. -/
def PollInv (hfd : Nat → Nat) (st : PollState) : Prop :=
  TableSorted st.table ∧ EntriesOk hfd st ∧ RegisteredOk hfd st

/-! ## Stream handler (`stream::*`)

Byte buffers are `List Nat`; only sizes steer control flow.  The read
buffer `rd_buf_` is a fixed-capacity vector filled in place up to
`collected_`, so we track its capacity `rdBufLen` and the fill level. -/

/-- The source's `receive_policy_flag`. -/
inductive RdFlag where
  | exactly
  | atMost
  | atLeast
deriving DecidableEq, Repr

/-- Registration requests a handler issues against its backend
(`backend().add(op, fd(), this)` / `backend().del(op, fd(), this)`),
for the handler's own fd. -/
inductive RegAction where
  | addRead
  | addWrite
  | delRead
  | delWrite
deriving DecidableEq, Repr

/-- Calls into the owning manager(s) (`reader_->…` / `writer_->…`). -/
inductive MgrCall where
  | consume (n : Nat)
  | ioFailureRead
  | ioFailureWrite
  | dataTransferred (written remaining : Nat)
deriving DecidableEq, Repr

/-- The state of one `stream` handler, including the `event_handler` base
fields it uses (`read_channel_closed_`) and its manager references. -/
structure StreamSt where
  rdFlag : RdFlag
  maxN : Nat
  readThreshold : Nat
  collected : Nat
  rdBufLen : Nat
  wrBuf : List Nat
  wrOfflineBuf : List Nat
  written : Nat
  ackWrites : Bool
  writing : Bool
  readChannelClosed : Bool
  reader : Option Nat
  writer : Option Nat
deriving DecidableEq, Repr

/-- The source's `stream::read_loop()`: reset `collected_` and size `rd_buf_` and
`read_threshold_` according to the receive policy. -/
def readLoop (st : StreamSt) : StreamSt :=
  match st.rdFlag with
  | .exactly =>
    { st with collected := 0, rdBufLen := st.maxN, readThreshold := st.maxN }
  | .atMost =>
    { st with collected := 0, rdBufLen := st.maxN, readThreshold := 1 }
  | .atLeast =>
    -- read up to 10% more, but at least allow 100 bytes more
    { st with collected := 0, rdBufLen := st.maxN + max 100 (st.maxN / 10)
              readThreshold := st.maxN }

/-- The source's `stream::write_loop()`: reset `written_`, clear `wr_buf_`; with an empty
offline buffer clear `writing_` and deregister write interest, otherwise swap
the freshly cleared `wr_buf_` with `wr_offline_buf_`. -/
def writeLoop (st : StreamSt) : StreamSt × List RegAction :=
  if st.wrOfflineBuf.isEmpty then
    ({ st with written := 0, wrBuf := [], writing := false }, [.delWrite])
  else
    ({ st with written := 0, wrBuf := st.wrOfflineBuf, wrOfflineBuf := [] }, [])

/-- The source's `stream::flush(mgr)`: if the offline buffer is nonempty and `writing_` is
false, register write interest, adopt the write-side manager, set
`writing_ = true` and enter `write_loop()`. -/
def flush (st : StreamSt) (mgr : Nat) : StreamSt × List RegAction :=
  if ¬st.wrOfflineBuf.isEmpty ∧ st.writing = false then
    let r := writeLoop { st with writer := some mgr, writing := true }
    (r.1, .addWrite :: r.2)
  else
    (st, [])

/-- The source's `stream::write(buf, n)`: append to the offline buffer. -/
def streamWrite (st : StreamSt) (bs : List Nat) : StreamSt :=
  { st with wrOfflineBuf := st.wrOfflineBuf ++ bs }

/-- The source's `stream::configure_read(config)`: store flag and size. -/
def configureRead (st : StreamSt) (f : RdFlag) (n : Nat) : StreamSt :=
  { st with rdFlag := f, maxN := n }

/-- The source's `event_handler::close_read_channel()`: half-shut the read side (a no-op if
already closed) and suppress further read dispatch. -/
def closeReadChannel (st : StreamSt) : StreamSt :=
  if st.readChannelClosed then st else { st with readChannelClosed := true }

/-- The source's `stream::stop_reading()`: close the read channel and deregister read
interest. -/
def stopReading (st : StreamSt) : StreamSt × List RegAction :=
  (closeReadChannel st, [.delRead])

/-- Outcome of one nonblocking `recv` as reported by `read_some`: `fail` is
EOF or a non-transient error (`read_some` returns `false`), `ok rb` yields
`rb` bytes (`rb = 0` on would-block).  The OS never returns more than the
requested `rd_buf_.size() - collected_` bytes. -/
inductive RecvRes where
  | fail
  | ok (rb : Nat)
deriving DecidableEq, Repr

/-- Outcome of one nonblocking `send` as reported by `write_some`. -/
inductive SendRes where
  | fail
  | ok (wb : Nat)
deriving DecidableEq, Repr

/-- The source's `stream::handle_event(operation::read)`: on failure report
`io_failure(read)` and deregister read interest; on `rb > 0` accumulate and,
once `collected_` reaches the threshold, deliver `collected_` bytes via
`consume` and restart the read loop. -/
def handleEventRead (st : StreamSt) (r : RecvRes) :
    StreamSt × List RegAction × List MgrCall :=
  match r with
  | .fail => (st, [.delRead], [.ioFailureRead])
  | .ok rb =>
    if rb > 0 then
      let c := st.collected + rb
      if c ≥ st.readThreshold then
        (readLoop { st with collected := c }, [], [.consume c])
      else
        ({ st with collected := c }, [], [])
    else
      (st, [], [])

/-- The source's `stream::handle_event(operation::write)`: on failure report
`io_failure(write)` and deregister write interest; on `wb > 0` advance
`written_`, acknowledge if `ack_writes_`, and re-enter `write_loop()` once the
online buffer is drained. -/
def handleEventWrite (st : StreamSt) (r : SendRes) :
    StreamSt × List RegAction × List MgrCall :=
  match r with
  | .fail => (st, [.delWrite], [.ioFailureWrite])
  | .ok wb =>
    if wb > 0 then
      let w := st.written + wb
      let remaining := st.wrBuf.length - w
      let acks : List MgrCall :=
        if st.ackWrites then
          [.dataTransferred wb (remaining + st.wrOfflineBuf.length)]
        else []
      let st' := { st with written := w }
      if remaining = 0 then
        let r := writeLoop st'
        (r.1, r.2, acks)
      else
        (st', [], acks)
    else
      (st, [], [])

/-- The source's `stream::handle_event(operation::propagate_error)`: report the failure on
each still-attached manager; the backend deletes the handler, so no `del` is
issued here. -/
def handleEventError (st : StreamSt) : StreamSt × List RegAction × List MgrCall :=
  (st, [],
    (if st.reader.isSome then [MgrCall.ioFailureRead] else []) ++
      (if st.writer.isSome then [MgrCall.ioFailureWrite] else []))

/-- The source's `default_multiplexer::handle_socket_event` specialised to a stream
handler: read dispatch unless the read channel is closed, write dispatch, and
the error branch only when neither read nor write bit was set. -/
def streamSocketEvent (st : StreamSt) (mask : Nat) (r : RecvRes) (w : SendRes) :
    StreamSt × List RegAction × List MgrCall :=
  let s1 :=
    if mask &&& input_mask ≠ 0 ∧ st.readChannelClosed = false then
      handleEventRead st r
    else (st, [], [])
  let s2 :=
    if mask &&& output_mask ≠ 0 then
      let t := handleEventWrite s1.1 w
      (t.1, s1.2.1 ++ t.2.1, s1.2.2 ++ t.2.2)
    else s1
  if mask &&& input_mask = 0 ∧ mask &&& output_mask = 0 ∧ mask &&& error_mask ≠ 0 then
    let t := handleEventError s2.1
    (t.1, s2.2.1 ++ [.delRead, .delWrite] ++ t.2.1, s2.2.2 ++ t.2.2)
  else s2

/-! ## One stream against its reactor

`Sys` pairs a stream with the reactor's committed interest bits for its fd.
A step runs one stream operation (or one dispatch iteration) and then applies
the pending registration events in insertion order — per the spec, pending
changes are applied before the loop waits again, and `removed_from_loop`
fires for each direction dropped from a registered mask, clearing the
corresponding manager reference. -/

structure Sys where
  str : StreamSt
  readInterest : Bool
  writeInterest : Bool
deriving DecidableEq, Repr

/-- Apply one committed registration change to the interest bits, firing
`stream::removed_from_loop` when a held direction is dropped. -/
def applyAction (s : Sys) (a : RegAction) : Sys :=
  match a with
  | .addRead => { s with readInterest := true }
  | .addWrite => { s with writeInterest := true }
  | .delRead =>
    if s.readInterest then
      { s with readInterest := false, str := { s.str with reader := none } }
    else s
  | .delWrite =>
    if s.writeInterest then
      { s with writeInterest := false, str := { s.str with writer := none } }
    else s

def applyActions (s : Sys) (as : List RegAction) : Sys :=
  as.foldl applyAction s

/-- One observable operation on the stream: a dispatch iteration with the
given readiness mask and I/O outcomes, or one of the calls the owning scribe
can make between iterations. -/
inductive StepInput where
  | dispatch (mask : Nat) (r : RecvRes) (w : SendRes)
  | flushStep (mgr : Nat)
  | writeStep (bs : List Nat)
  | configureStep (f : RdFlag) (n : Nat)
  | stopReadingStep
deriving DecidableEq, Repr

/-- Run one step and apply its pending registration events. -/
def runStep (s : Sys) (i : StepInput) : Sys × List MgrCall :=
  match i with
  | .dispatch mask r w =>
    let t := streamSocketEvent s.str mask r w
    (applyActions { s with str := t.1 } t.2.1, t.2.2)
  | .flushStep mgr =>
    let t := flush s.str mgr
    (applyActions { s with str := t.1 } t.2, [])
  | .writeStep bs => ({ s with str := streamWrite s.str bs }, [])
  | .configureStep f n => ({ s with str := configureRead s.str f n }, [])
  | .stopReadingStep =>
    let t := stopReading s.str
    (applyActions { s with str := t.1 } t.2, [])

/-- Run a sequence of steps, accumulating all manager calls. -/
def runSteps (s : Sys) : List StepInput → Sys × List MgrCall
  | [] => (s, [])
  | i :: is =>
    let t := runStep s i
    let r := runSteps t.1 is
    (r.1, t.2 ++ r.2)

/-! ## Event dispatch (`default_multiplexer::handle_socket_event`) -/

/-- What one call to `handle_socket_event` does for a given readiness mask
and handler: which callbacks it invokes and which deregistrations it issues. -/
structure DispatchTrace where
  readInvoked : Bool
  writeInvoked : Bool
  errorInvoked : Bool
  delsIssued : List RegAction
deriving DecidableEq, Repr

/-- The source's `default_multiplexer::handle_socket_event(fd, mask, ptr)`: `checkerror`
starts `true` and is cleared by the read branch and by the write branch, so
the error branch runs exactly when neither of the first two bits is set; the
read callback is additionally guarded by `read_channel_closed()`. -/
def handleSocketEvent (mask : Nat) (readChannelClosed : Bool) : DispatchTrace :=
  let hasInput : Bool := mask &&& input_mask != 0
  let hasOutput : Bool := mask &&& output_mask != 0
  let hasError : Bool := mask &&& error_mask != 0
  let checkerror := !hasInput && !hasOutput
  { readInvoked := hasInput && !readChannelClosed
    writeInvoked := hasOutput
    errorInvoked := checkerror && hasError
    delsIssued := if checkerror && hasError then [.delRead, .delWrite] else [] }

/-! ## Wake pipe (`wr_dispatch_request`, `pipe_reader`) -/

/-- The observable effect of `default_multiplexer::wr_dispatch_request` on the
task pointer: whether one reference was released, whether the process aborted
(after the diagnostic on standard error), and whether the task was resumed
here (it never is; resumption happens in the pipe reader). -/
structure WrDispatchEffect where
  refReleased : Bool
  aborted : Bool
  resumed : Bool
deriving DecidableEq, Repr

/-- The source's `wr_dispatch_request(ptr)`: `res <= 0` means the pipe is closed, so the
resumable is released; `0 < res < sizeof(ptrval)` is a short write, which
prints a diagnostic and calls `abort()`; a full write does nothing further.
`ptrSize` stands for `sizeof(intptr_t)`. -/
def wrDispatchRequest (ptrSize : Nat) (res : Int) : WrDispatchEffect :=
  if res ≤ 0 then ⟨true, false, false⟩
  else if res < (ptrSize : Int) then ⟨false, true, false⟩
  else ⟨false, false, false⟩

/-- The source's `sizeof(intptr_t)` on the 64-bit targets. -/
def ptrBytes : Nat := 8

/-- The byte image a complete pipe write leaves for one task pointer
(little-endian `ptrBytes` bytes of the pointer value). -/
def ptrToBytes (w : Nat) : List Nat :=
  (List.range ptrBytes).map fun i => w / 256 ^ i % 256

/-- Pipe content after a sequence of complete pointer writes — short writes
abort the process (`wr_dispatch_request`), and pointer-sized writes are atomic
on the pipe, so the pipe always holds a whole number of pointer images. -/
def pipeOfPtrs (ws : List Nat) : List Nat :=
  (ws.map ptrToBytes).flatten

/-- The source's `pipe_reader::try_read_next()`: `read(fd, &ptrval, sizeof(ptrval))` on a
pipe returns `min(sizeof(ptrval), available)` bytes once data is available;
any result other than `sizeof(ptrval)` yields a null pointer.  Returns the
bytes handed to the caller (the pointer value, or `none` for null) and the
remaining pipe content. -/
def tryReadNext (buf : List Nat) : Option (List Nat) × List Nat :=
  let res := min ptrBytes buf.length
  (if res = ptrBytes then some (buf.take ptrBytes) else none, buf.drop res)

/-- The source's `pipe_reader::handle_event(op)`: only the read branch touches the pipe;
the pointer returned by `try_read_next` is dereferenced (`cb->resume(...)`)
without a null check, so the first component is the pointer passed to
`resume`. -/
def pipeReaderHandleEvent (op : Operation) (buf : List Nat) :
    Option (List Nat) × List Nat :=
  match op with
  | .read => tryReadNext buf
  | _ => (none, buf)

/-! ## `new_tcp_connection` -/

/-- The source's `protocol`: the two address families in play. -/
inductive Protocol where
  | ipv4
  | ipv6
deriving DecidableEq, Repr

/-- Outcome of `new_tcp_connection`: the connected fd on success (`none` is a
thrown `network_error`), plus every fd that was closed on the way (by
`sguard.close()` on the v6 fallback or by the guard's destructor on a failure
path). -/
structure ConnOutcome where
  result : Option Nat
  closed : List Nat
deriving DecidableEq, Repr

/-- The source's `new_tcp_connection(host, port, preferred)`.  `resolve` stands for
`interfaces::native_address(host, preferred)` restricted to the returned
family, `connOk` for the success of `ip_connect` per family, and `fd` is the
descriptor handed out for the next `socket()` call (successive calls get
successive numbers).  The fuel bounds the source's recursion, whose depth is
at most 2 whenever the resolver honours the forced-v4 hint; fuel 0 is never
reached in that case. -/
def newTcpConnection : Nat → (Option Protocol → Option Protocol) →
    (Protocol → Bool) → Option Protocol → Nat → ConnOutcome
  | 0, _, _, _, _ => ⟨none, []⟩
  | fuel + 1, resolve, connOk, preferred, fd =>
    match resolve preferred with
    | none => ⟨none, []⟩
    | some .ipv6 =>
      if connOk .ipv6 then ⟨some fd, []⟩
      else
        -- close the v6 socket, then IPv4 fallback
        let rest := newTcpConnection fuel resolve connOk (some .ipv4) (fd + 1)
        ⟨rest.result, fd :: rest.closed⟩
    | some .ipv4 =>
      if connOk .ipv4 then ⟨some fd, []⟩
      else ⟨none, [fd]⟩

/-! ## Auxiliary predicates for the invariant claims -/

/-- A concrete stream state used by several witnesses: at-most-1024 policy,
one byte (`7`) waiting in the offline buffer, nothing registered. -/
def sampleStream : StreamSt :=
  { rdFlag := .atMost, maxN := 1024, readThreshold := 1, collected := 0
    rdBufLen := 0, wrBuf := [], wrOfflineBuf := [7], written := 0
    ackWrites := false, writing := false, readChannelClosed := false
    reader := some 1, writer := none }

/-- The state-machine invariant of the *exactly N* policy between read
events: the policy is `exactly`, buffer capacity and threshold are pinned at
`N = maxN`, and the fill level never exceeds it. -/
def ExactInv (st : StreamSt) : Prop :=
  st.rdFlag = .exactly ∧ st.rdBufLen = st.maxN ∧
    st.readThreshold = st.maxN ∧ st.collected ≤ st.maxN

instance (st : StreamSt) : Decidable (ExactInv st) := by
  unfold ExactInv
  infer_instance

/-- The source's `recv` never returns more bytes than the `rd_buf_.size() - collected_` it
was asked for. -/
def recvValid (st : StreamSt) : RecvRes → Bool
  | .fail => true
  | .ok rb => rb ≤ st.rdBufLen - st.collected

/-- A sequence of read-readiness events against one stream, accumulating the
manager calls. -/
def runReads (st : StreamSt) : List RecvRes → StreamSt × List MgrCall
  | [] => (st, [])
  | r :: rs =>
    let t := handleEventRead st r
    let u := runReads t.1 rs
    (u.1, t.2.2 ++ u.2)

/-- Every read outcome of the trace obeys the OS bound at the state where it
is delivered. -/
def recvTraceValid (st : StreamSt) : List RecvRes → Bool
  | [] => true
  | r :: rs => recvValid st r && recvTraceValid (handleEventRead st r).1 rs

/-- How one committed registration change moves the write-interest bit. -/
def wiStep (b : Bool) (a : RegAction) : Bool :=
  match a with
  | .addWrite => true
  | .delWrite => false
  | _ => b

/-- The operations covered by the C2 invariant: everything except a dispatch
that takes the send-error branch or the error-only branch. -/
def stepOkC2 : StepInput → Bool
  | .dispatch mask _ w =>
    (mask &&& output_mask == 0 || w != SendRes.fail) &&
      !((mask &&& input_mask == 0) && (mask &&& output_mask == 0) &&
        (mask &&& error_mask != 0))
  | _ => true

/-- A concrete poll-backend reactor state: one handler (id 0, fd 7)
registered for reading; handler 1 (fd 5) not registered. -/
def cexPollState : PollState :=
  { table := [⟨7, 1, some 0⟩], eventbf := fun q => if q = 0 then 1 else 0 }

/-- A concrete exactly-4 stream, freshly through `read_loop`. -/
def exactStream4 : StreamSt :=
  { sampleStream with rdFlag := .exactly, maxN := 4, readThreshold := 4
                      rdBufLen := 4 }

/-- A system in the middle of draining its online buffer: `writing` set,
write interest committed, one byte left to send. -/
def sampleWritingSys : Sys :=
  { str := { sampleStream with wrBuf := [7], writing := true, writer := some 2 }
    readInterest := false
    writeInterest := true }

/-! ## Spec-side definitions used for comparison -/

/-- The spec's read-policy table, buffer-size column, stated from the spec's
words to be compared against `readLoop`. -/
def specBufferSize : RdFlag → Nat → Nat
  | .exactly, n => n
  | .atMost, n => n
  | .atLeast, n => n + max 100 (n / 10)

/-- The spec's read-policy table, `read_threshold` column, stated from the
spec's words to be compared against `readLoop`. -/
def specReadThreshold : RdFlag → Nat → Nat
  | .exactly, n => n
  | .atMost, _ => 1
  | .atLeast, n => n

/-! ## Theorems -/

/-- Claim C4: every `read_loop()` call resets `collected` to 0 and sizes the
read buffer and the read threshold exactly as the spec's policy table
prescribes (exactly: buffer `N`, threshold `N`; at-most: buffer `N`,
threshold 1; at-least: buffer `N + max(100, N/10)`, threshold `N`), leaving
the policy itself untouched. -/
theorem read_loop_matches_spec_table (st : StreamSt) :
    (readLoop st).collected = 0 ∧
    (readLoop st).rdBufLen = specBufferSize st.rdFlag st.maxN ∧
    (readLoop st).readThreshold = specReadThreshold st.rdFlag st.maxN ∧
    (readLoop st).rdFlag = st.rdFlag ∧ (readLoop st).maxN = st.maxN := by
  cases h : st.rdFlag <;>
    simp [readLoop, specBufferSize, specReadThreshold, h]

/-- Claim C6: a pipe write result of at most 0 releases exactly one reference
on the task and nothing else happens; a positive result smaller than the
pointer size aborts the process after the diagnostic; a complete write
neither releases nor aborts, and no branch resumes the task. -/
theorem wr_dispatch_request_spec (ptrSize : Nat) (res : Int) :
    ((wrDispatchRequest ptrSize res).refReleased = true ↔ res ≤ 0) ∧
    ((wrDispatchRequest ptrSize res).aborted = true ↔
      0 < res ∧ res < (ptrSize : Int)) ∧
    (wrDispatchRequest ptrSize res).resumed = false ∧
    ((wrDispatchRequest ptrSize res).refReleased = false ∧
        (wrDispatchRequest ptrSize res).aborted = false ↔
      0 < res ∧ (ptrSize : Int) ≤ res) := by
  unfold wrDispatchRequest
  split_ifs with h1 h2 <;> simp <;> omega

/-- Claim C7: in `handle_socket_event` the read callback fires iff the read
bit is set and the read channel is open; the write callback fires iff the
write bit is set; the error callback fires iff neither the read nor the write
bit is set and the error bit is — and exactly then `del(read, fd)` and
`del(write, fd)` are issued. -/
theorem handle_socket_event_spec (mask : Nat) (closed : Bool) :
    ((handleSocketEvent mask closed).readInvoked = true ↔
      mask &&& input_mask ≠ 0 ∧ closed = false) ∧
    ((handleSocketEvent mask closed).writeInvoked = true ↔
      mask &&& output_mask ≠ 0) ∧
    ((handleSocketEvent mask closed).errorInvoked = true ↔
      mask &&& input_mask = 0 ∧ mask &&& output_mask = 0 ∧
        mask &&& error_mask ≠ 0) ∧
    (handleSocketEvent mask closed).delsIssued =
      (if (handleSocketEvent mask closed).errorInvoked then
        [RegAction.delRead, RegAction.delWrite]
      else []) := by
  cases closed <;>
    simp [handleSocketEvent, bne_iff_ne, and_assoc]

/-- Claim C8: `flush(mgr)` is idempotent — a second flush with the same
manager changes nothing and schedules nothing — and it is a no-op exactly
when the offline buffer is empty or `writing` already holds; otherwise it
adopts the write-side manager, registers write interest, sets `writing`, and
enters `write_loop`, which swaps the offline buffer in. -/
theorem flush_idempotent (st : StreamSt) (mgr : Nat) :
    flush (flush st mgr).1 mgr = ((flush st mgr).1, []) ∧
    (flush st mgr = (st, []) ↔
      st.wrOfflineBuf.isEmpty = true ∨ st.writing = true) ∧
    (st.wrOfflineBuf.isEmpty = false → st.writing = false →
      (flush st mgr).1 =
        { st with writer := some mgr, writing := true, written := 0
                  wrBuf := st.wrOfflineBuf, wrOfflineBuf := [] } ∧
      (flush st mgr).2 = [.addWrite]) := by
  cases hbuf : st.wrOfflineBuf.isEmpty with
  | true =>
    have hst : flush st mgr = (st, []) := by
      simp [flush, hbuf]
    refine ⟨?_, by simp [hst, hbuf], ?_⟩
    · rw [hst]; exact hst
    · intro ha _; cases ha
  | false =>
    cases hwr : st.writing with
    | true =>
      have hst : flush st mgr = (st, []) := by
        simp [flush, hbuf, hwr]
      refine ⟨?_, by simp [hst, hwr], ?_⟩
      · rw [hst]; exact hst
      · intro _ hb; cases hb
    | false =>
      have hst : flush st mgr =
          ({ st with writer := some mgr, writing := true, written := 0
                     wrBuf := st.wrOfflineBuf, wrOfflineBuf := [] },
            [.addWrite]) := by
        simp [flush, writeLoop, hbuf, hwr]
      refine ⟨?_, ?_, fun _ _ => ⟨by rw [hst], by rw [hst]⟩⟩
      · rw [hst]; simp [flush]
      · rw [hst]
        constructor
        · intro hEq
          have := congrArg Prod.snd hEq
          simp at this
        · rintro (h | h) <;> cases h

/-- Claim C8 witness: on `sampleStream` (nonempty offline buffer, not
writing) the first flush acts and schedules the write registration; the
second flush is a no-op. -/
theorem flush_idempotent_witness :
    flush (flush sampleStream 2).1 2 = ((flush sampleStream 2).1, []) ∧
    (flush sampleStream 2).2 = [.addWrite] :=
  ⟨(flush_idempotent sampleStream 2).1,
    ((flush_idempotent sampleStream 2).2.2 rfl rfl).2⟩

/-- Claim C10: when the pipe reader is dispatched for read readiness the pipe
holds at least one complete pointer image (short pipe writes abort the
writer, so only whole pointers are ever queued), hence `try_read_next`
returns the first queued pointer — never null — at the point `resume` is
invoked, and the short-read branch is not taken. -/
theorem pipe_reader_read_nonnull (p : Nat) (ps : List Nat) :
    pipeReaderHandleEvent .read (pipeOfPtrs (p :: ps)) =
      (some (ptrToBytes p), pipeOfPtrs ps) := by
  have hflat : pipeOfPtrs (p :: ps) = ptrToBytes p ++ pipeOfPtrs ps := by
    simp [pipeOfPtrs]
  have hlen : (ptrToBytes p).length = ptrBytes := by
    simp [ptrToBytes]
  have hm : min ptrBytes (ptrToBytes p ++ pipeOfPtrs ps).length = ptrBytes := by
    rw [List.length_append, hlen]; omega
  simp only [pipeReaderHandleEvent, tryReadNext]
  rw [hflat, hm, if_pos rfl, ← hlen, List.take_left, List.drop_left]

/-- Claim C9: when the host resolves to v6 and the v6 connect fails,
`new_tcp_connection` closes the v6 socket and retries with the preferred
family forced to v4; if the forced v4 connect also fails, the call fails with
a network error and the v4 socket is closed by the scoped guard (on success
the v4 fd is returned and only the v6 fd was closed). -/
theorem new_tcp_connection_v6_fallback
    (resolve : Option Protocol → Option Protocol) (connOk : Protocol → Bool)
    (preferred : Option Protocol) (fd : Nat)
    (h6 : resolve preferred = some .ipv6) (hc6 : connOk .ipv6 = false)
    (h4 : resolve (some .ipv4) = some .ipv4) :
    (connOk .ipv4 = false →
      newTcpConnection 2 resolve connOk preferred fd = ⟨none, [fd, fd + 1]⟩) ∧
    (connOk .ipv4 = true →
      newTcpConnection 2 resolve connOk preferred fd = ⟨some (fd + 1), [fd]⟩) := by
  constructor <;> intro hc4 <;>
    simp [newTcpConnection, h6, hc6, h4, hc4]

/-- Claim C9 witness: with a resolver that answers v6 until forced to v4 and
connects that always fail, the call fails and both sockets are closed. -/
theorem new_tcp_connection_v6_fallback_witness :
    newTcpConnection 2
      (fun o => match o with | some .ipv4 => some .ipv4 | _ => some .ipv6)
      (fun _ => false) none 10 = ⟨none, [10, 11]⟩ :=
  (new_tcp_connection_v6_fallback
    (fun o => match o with | some .ipv4 => some .ipv4 | _ => some .ipv6)
    (fun _ => false) none 10 rfl rfl rfl).1 rfl

/-- One read event under the exactly-N invariant: any `consume` it emits
carries exactly `maxN` bytes, and the invariant (with the same `N`) holds
again afterwards. -/
theorem handleEventRead_exact (st : StreamSt) (r : RecvRes)
    (hInv : ExactInv st) (hr : recvValid st r = true) :
    (∀ n, MgrCall.consume n ∈ (handleEventRead st r).2.2 → n = st.maxN) ∧
    ExactInv (handleEventRead st r).1 ∧
    (handleEventRead st r).1.maxN = st.maxN := by
  obtain ⟨hf, hb, ht, hc⟩ := hInv
  cases r with
  | fail =>
    exact ⟨by simp [handleEventRead], ⟨hf, hb, ht, hc⟩, rfl⟩
  | ok rb =>
    by_cases hrb : rb > 0
    · have hrv : rb ≤ st.rdBufLen - st.collected := by
        simpa [recvValid] using hr
      have hle : st.collected + rb ≤ st.maxN := by omega
      by_cases hth : st.collected + rb ≥ st.readThreshold
      · have hceq : st.collected + rb = st.maxN := by omega
        refine ⟨?_, ?_, ?_⟩
        · intro n hn
          simp [handleEventRead, hrb, hth] at hn
          omega
        · simp only [handleEventRead, if_pos hrb, if_pos hth]
          simp [readLoop, hf, ExactInv]
        · simp only [handleEventRead, if_pos hrb, if_pos hth]
          simp [readLoop, hf]
      · refine ⟨?_, ?_, ?_⟩
        · intro n hn
          simp [handleEventRead, hrb, hth] at hn
        · simp only [handleEventRead, if_pos hrb, if_neg hth]
          exact ⟨hf, hb, ht, hle⟩
        · simp [handleEventRead, hrb, hth]
    · refine ⟨by simp [handleEventRead, hrb], ?_, by simp [handleEventRead, hrb]⟩
      simp only [handleEventRead, if_neg hrb]
      exact ⟨hf, hb, ht, hc⟩

/-- Claim C3: for a stream under policy *exactly N*, across any valid
sequence of read events every `consume` call delivers exactly `N` bytes —
bytes accumulate until `collected` reaches the threshold `N`, after which the
state machine restarts — and the exactly-N invariant is maintained. -/
theorem exactly_policy_consumes_exactly (st : StreamSt) (rs : List RecvRes)
    (hInv : ExactInv st) (hv : recvTraceValid st rs = true) :
    (∀ n, MgrCall.consume n ∈ (runReads st rs).2 → n = st.maxN) ∧
    ExactInv (runReads st rs).1 ∧
    (runReads st rs).1.maxN = st.maxN := by
  induction rs generalizing st with
  | nil => exact ⟨by simp [runReads], hInv, rfl⟩
  | cons r rs ih =>
    rw [recvTraceValid, Bool.and_eq_true] at hv
    obtain ⟨h1, h2⟩ := hv
    obtain ⟨hcons, hinv', hmax⟩ := handleEventRead_exact st r hInv h1
    obtain ⟨ihc, ihinv, ihmax⟩ := ih _ hinv' h2
    refine ⟨?_, ?_, ?_⟩
    · intro n hn
      rw [runReads] at hn
      simp only [List.mem_append] at hn
      rcases hn with hn | hn
      · exact hcons n hn
      · exact (ihc n hn).trans hmax
    · rw [runReads]
      exact ihinv
    · rw [runReads]
      exact ihmax.trans hmax

/-- Claim C3 witness: an exactly-4 stream fed two 2-byte reads emits one
`consume` and it carries 4 bytes. -/
theorem exactly_policy_consumes_exactly_witness :
    (∀ n, MgrCall.consume n ∈
        (runReads exactStream4 [RecvRes.ok 2, RecvRes.ok 2]).2 → n = 4) ∧
    ExactInv (runReads exactStream4 [RecvRes.ok 2, RecvRes.ok 2]).1 :=
  let h := exactly_policy_consumes_exactly exactStream4 [RecvRes.ok 2, RecvRes.ok 2]
    ⟨rfl, rfl, rfl, by decide⟩ (by decide)
  ⟨h.1, h.2.1⟩

/-- Applying committed registration changes never touches a stream's
`writing` flag. -/
theorem applyActions_writing (as : List RegAction) (s : Sys) :
    (applyActions s as).str.writing = s.str.writing := by
  induction as generalizing s with
  | nil => rfl
  | cons a as ih =>
    rw [applyActions, List.foldl_cons, ← applyActions]
    rw [ih]
    cases a <;> simp only [applyAction] <;> split_ifs <;> rfl

/-- Applying committed registration changes never touches
`read_channel_closed`. -/
theorem applyActions_closed (as : List RegAction) (s : Sys) :
    (applyActions s as).str.readChannelClosed = s.str.readChannelClosed := by
  induction as generalizing s with
  | nil => rfl
  | cons a as ih =>
    rw [applyActions, List.foldl_cons, ← applyActions]
    rw [ih]
    cases a <;> simp only [applyAction] <;> split_ifs <;> rfl

/-- The committed write-interest bit after a batch is the `wiStep` fold of
the batch. -/
theorem applyActions_writeInterest (as : List RegAction) (s : Sys) :
    (applyActions s as).writeInterest = as.foldl wiStep s.writeInterest := by
  induction as generalizing s with
  | nil => rfl
  | cons a as ih =>
    rw [applyActions, List.foldl_cons, ← applyActions, List.foldl_cons]
    rw [ih]
    congr 1
    cases a <;> simp only [applyAction, wiStep] <;> split_ifs with h <;>
      simp_all

/-- A batch without `addRead` keeps a cleared read-interest bit cleared. -/
theorem applyActions_readInterest (as : List RegAction) (s : Sys)
    (hna : RegAction.addRead ∉ as) (hri : s.readInterest = false) :
    (applyActions s as).readInterest = false := by
  induction as generalizing s with
  | nil => exact hri
  | cons a as ih =>
    rw [applyActions, List.foldl_cons, ← applyActions]
    refine ih _ (fun h => hna (List.mem_cons_of_mem _ h)) ?_
    cases a with
    | addRead => exact absurd (List.mem_cons_self _ _) hna
    | addWrite => exact hri
    | delRead =>
      simp only [applyAction]
      split_ifs <;> simp [hri]
    | delWrite =>
      simp only [applyAction]
      split_ifs <;> simp [hri]

/-- A read event neither touches the `writing` flag nor schedules a
write-side registration change (its only possible action is `del(read)`),
and it never closes the read channel. -/
theorem handleEventRead_shape (st : StreamSt) (r : RecvRes) :
    (handleEventRead st r).1.writing = st.writing ∧
    ((handleEventRead st r).2.1 = [] ∨ (handleEventRead st r).2.1 = [.delRead]) ∧
    (handleEventRead st r).1.readChannelClosed = st.readChannelClosed := by
  cases r with
  | fail => exact ⟨rfl, Or.inr rfl, rfl⟩
  | ok rb =>
    by_cases h1 : rb > 0
    · by_cases h2 : st.collected + rb ≥ st.readThreshold
      · simp only [handleEventRead, if_pos h1, if_pos h2]
        cases h : st.rdFlag <;> simp [readLoop, h]
      · simp [handleEventRead, h1, h2]
    · simp [handleEventRead, h1]

/-- A successful write event leaves the `writing` flag in agreement with the
`wiStep` fold of the actions it schedules, starting from any bit that agreed
with `writing` before; it never closes the read channel. -/
theorem handleEventWrite_wi (st : StreamSt) (w : SendRes) (b : Bool)
    (hw : w ≠ .fail) (hb : st.writing = b) :
    (handleEventWrite st w).1.writing = (handleEventWrite st w).2.1.foldl wiStep b ∧
    (handleEventWrite st w).1.readChannelClosed = st.readChannelClosed := by
  cases w with
  | fail => exact absurd rfl hw
  | ok wb =>
    by_cases h1 : wb > 0
    · by_cases h2 : st.wrBuf.length - (st.written + wb) = 0
      · by_cases h3 : st.wrOfflineBuf.isEmpty
        · simp [handleEventWrite, h1, h2, writeLoop, h3, wiStep]
        · simp [handleEventWrite, h1, h2, writeLoop, h3, wiStep, hb]
      · simp [handleEventWrite, h1, h2, hb]
    · simp [handleEventWrite, h1, hb]

/-- The source's `flush` characterised: it acts exactly when the offline buffer is
nonempty and `writing` is clear. -/
theorem flush_char (st : StreamSt) (mgr : Nat) :
    (st.wrOfflineBuf.isEmpty = false → st.writing = false →
      flush st mgr =
        ({ st with writer := some mgr, writing := true, written := 0
                   wrBuf := st.wrOfflineBuf, wrOfflineBuf := [] },
          [.addWrite])) ∧
    (st.wrOfflineBuf.isEmpty = true ∨ st.writing = true →
      flush st mgr = (st, [])) := by
  constructor
  · intro h1 h2
    simp [flush, writeLoop, h1, h2]
  · rintro (h | h) <;> simp [flush, h]

/-- Claim C2 (amended): a stream's `writing` flag agrees with the committed
write interest after `flush`, `write`, `configure_read`, `stop_reading`, and
every dispatch iteration that does not hit the send-error branch (and is not
an error-only dispatch, which tears the handler down): those two paths
deregister write interest while leaving `writing` set. -/
theorem writing_iff_write_interest (s : Sys) (i : StepInput)
    (hInv : s.str.writing = s.writeInterest) (hok : stepOkC2 i = true) :
    (runStep s i).1.str.writing = (runStep s i).1.writeInterest := by
  cases i with
  | writeStep bs => exact hInv
  | configureStep f n => exact hInv
  | stopReadingStep =>
    simp only [runStep]
    rw [applyActions_writing, applyActions_writeInterest]
    have hcc : (closeReadChannel s.str).writing = s.str.writing := by
      unfold closeReadChannel
      split_ifs <;> rfl
    simp only [stopReading, List.foldl_cons, List.foldl_nil, wiStep]
    simpa [hcc] using hInv
  | flushStep mgr =>
    simp only [runStep]
    rw [applyActions_writing, applyActions_writeInterest]
    cases hbuf : s.str.wrOfflineBuf.isEmpty with
    | true => rw [(flush_char s.str mgr).2 (Or.inl hbuf)]; exact hInv
    | false =>
      cases hwr : s.str.writing with
      | true => rw [(flush_char s.str mgr).2 (Or.inr hwr)]; exact hInv
      | false =>
        rw [(flush_char s.str mgr).1 hbuf hwr]
        simp [wiStep]
  | dispatch mask r w =>
    rw [stepOkC2, Bool.and_eq_true, Bool.or_eq_true, Bool.not_eq_true'] at hok
    obtain ⟨hok1, hok2⟩ := hok
    simp only [runStep]
    rw [applyActions_writing, applyActions_writeInterest]
    unfold streamSocketEvent
    have herr : ¬(mask &&& input_mask = 0 ∧ mask &&& output_mask = 0 ∧
        mask &&& error_mask ≠ 0) := by
      intro ⟨e1, e2, e3⟩
      simp [e1, e2, e3] at hok2
    by_cases hrd : mask &&& input_mask ≠ 0 ∧ s.str.readChannelClosed = false
    · obtain ⟨hrw, hra, -⟩ := handleEventRead_shape s.str r
      by_cases hwr : mask &&& output_mask ≠ 0
      · have hwfail : w ≠ .fail := by
          rcases hok1 with h | h
          · exact absurd (by simpa using h) hwr
          · simpa using h
        obtain ⟨hW, -⟩ := handleEventWrite_wi (handleEventRead s.str r).1 w
          s.writeInterest hwfail (hrw.trans hInv)
        simp only [if_pos hrd, if_pos hwr, if_neg herr]
        rw [hW, List.foldl_append]
        congr 1
        rcases hra with h | h <;> rw [h] <;> rfl
      · simp only [if_pos hrd, if_neg hwr, if_neg herr]
        rw [hrw, hInv]
        rcases hra with h | h <;> rw [h] <;> rfl
    · by_cases hwr : mask &&& output_mask ≠ 0
      · have hwfail : w ≠ .fail := by
          rcases hok1 with h | h
          · exact absurd (by simpa using h) hwr
          · simpa using h
        obtain ⟨hW, -⟩ := handleEventWrite_wi s.str w s.writeInterest hwfail hInv
        simp only [if_neg hrd, if_pos hwr, if_neg herr]
        rw [hW]
        rfl
      · simp only [if_neg hrd, if_neg hwr, if_neg herr]
        exact hInv

/-- Claim C2 witness: a flush on an idle stream with buffered output sets
`writing` and, once the pending event is applied, write interest — the two
agree afterwards. -/
theorem writing_iff_write_interest_witness :
    (runStep ⟨sampleStream, false, false⟩ (.flushStep 2)).1.str.writing =
      (runStep ⟨sampleStream, false, false⟩ (.flushStep 2)).1.writeInterest :=
  writing_iff_write_interest ⟨sampleStream, false, false⟩ (.flushStep 2)
    rfl rfl

/-- Claim C2 counterexample: from a state where `writing` agrees with held
write interest, a write-readiness dispatch whose `send` fails deregisters
write interest but leaves `writing` true, so the biconditional of the claim
fails on the send-error path. -/
theorem writing_iff_write_interest_counterexample :
    sampleWritingSys.str.writing = sampleWritingSys.writeInterest ∧
    (runStep sampleWritingSys
      (.dispatch output_mask (RecvRes.ok 0) SendRes.fail)).1.str.writing = true ∧
    (runStep sampleWritingSys
      (.dispatch output_mask (RecvRes.ok 0) SendRes.fail)).1.writeInterest =
      false := by
  decide

/-- A write event never emits `consume`, never schedules `add(read)`, and
never closes the read channel. -/
theorem handleEventWrite_shape (st : StreamSt) (w : SendRes) :
    (∀ n, MgrCall.consume n ∉ (handleEventWrite st w).2.2) ∧
    RegAction.addRead ∉ (handleEventWrite st w).2.1 ∧
    (handleEventWrite st w).1.readChannelClosed = st.readChannelClosed := by
  cases w with
  | fail => simp [handleEventWrite]
  | ok wb =>
    by_cases h1 : wb > 0
    · by_cases h2 : st.wrBuf.length - (st.written + wb) = 0
      · by_cases h3 : st.wrOfflineBuf.isEmpty <;> by_cases h4 : st.ackWrites <;>
          simp [handleEventWrite, h1, h2, writeLoop, h3, h4]
      · by_cases h4 : st.ackWrites <;> simp [handleEventWrite, h1, h2, h4]
    · simp [handleEventWrite, h1]

/-- The error callback path never emits `consume` and leaves the stream state
untouched. -/
theorem handleEventError_shape (st : StreamSt) :
    (∀ n, MgrCall.consume n ∉ (handleEventError st).2.2) ∧
    (handleEventError st).1 = st := by
  refine ⟨?_, rfl⟩
  intro n
  by_cases h1 : st.reader.isSome <;> by_cases h2 : st.writer.isSome <;>
    simp [handleEventError, h1, h2]

/-- The source's `flush` never schedules `add(read)` and never closes the read channel. -/
theorem flush_shape (st : StreamSt) (mgr : Nat) :
    RegAction.addRead ∉ (flush st mgr).2 ∧
    (flush st mgr).1.readChannelClosed = st.readChannelClosed := by
  cases hbuf : st.wrOfflineBuf.isEmpty with
  | true => rw [(flush_char st mgr).2 (Or.inl hbuf)]; simp
  | false =>
    cases hwr : st.writing with
    | true => rw [(flush_char st mgr).2 (Or.inr hwr)]; simp
    | false => rw [(flush_char st mgr).1 hbuf hwr]; simp

/-- One step from a read-closed, read-deregistered state: no `consume` is
emitted, the read channel stays closed, and read interest stays cleared. -/
theorem runStep_after_stop (s : Sys) (i : StepInput)
    (hclosed : s.str.readChannelClosed = true) (hri : s.readInterest = false) :
    (∀ n, MgrCall.consume n ∉ (runStep s i).2) ∧
    (runStep s i).1.str.readChannelClosed = true ∧
    (runStep s i).1.readInterest = false := by
  cases i with
  | writeStep bs => exact ⟨by simp [runStep], hclosed, hri⟩
  | configureStep f n => exact ⟨by simp [runStep], hclosed, hri⟩
  | stopReadingStep =>
    simp only [runStep]
    refine ⟨by simp, ?_, ?_⟩
    · rw [applyActions_closed]
      show (closeReadChannel s.str).readChannelClosed = true
      unfold closeReadChannel
      rw [if_pos hclosed]
      exact hclosed
    · refine applyActions_readInterest _ _ (by simp [stopReading]) hri
  | flushStep mgr =>
    obtain ⟨hfa, hfc⟩ := flush_shape s.str mgr
    simp only [runStep]
    refine ⟨by simp, ?_, applyActions_readInterest _ _ hfa hri⟩
    rw [applyActions_closed]
    exact hfc.trans hclosed
  | dispatch mask r w =>
    have hrd : ¬(mask &&& input_mask ≠ 0 ∧ s.str.readChannelClosed = false) := by
      rintro ⟨-, h⟩
      rw [hclosed] at h
      cases h
    obtain ⟨hwc, hwa, hwcl⟩ := handleEventWrite_shape s.str w
    simp only [runStep]
    by_cases hwr : mask &&& output_mask ≠ 0
    · have herr : ¬(mask &&& input_mask = 0 ∧ mask &&& output_mask = 0 ∧
          mask &&& error_mask ≠ 0) := fun h => hwr h.2.1
      simp only [streamSocketEvent, if_neg hrd, if_pos hwr, if_neg herr]
      refine ⟨?_, ?_, ?_⟩
      · intro n hn
        rw [List.nil_append] at hn
        exact hwc n hn
      · rw [applyActions_closed]
        exact hwcl.trans hclosed
      · exact applyActions_readInterest _ _ (by simpa using hwa) hri
    · by_cases herr : mask &&& input_mask = 0 ∧ mask &&& output_mask = 0 ∧
          mask &&& error_mask ≠ 0
      · obtain ⟨hec, hes⟩ := handleEventError_shape s.str
        simp only [streamSocketEvent, if_neg hrd, if_neg hwr, if_pos herr]
        refine ⟨?_, ?_, ?_⟩
        · intro n hn
          rw [List.nil_append] at hn
          exact hec n hn
        · rw [applyActions_closed]
          show (handleEventError s.str).1.readChannelClosed = true
          rw [hes]
          exact hclosed
        · exact applyActions_readInterest _ _ (by simp [handleEventError]) hri
      · simp only [streamSocketEvent, if_neg hrd, if_neg hwr, if_neg herr]
        exact ⟨by simp, hclosed, hri⟩

/-- Claim C5: after `stop_reading` (which closes the read channel — last
conjunct) no subsequent sequence of dispatches and stream operations ever
emits a `consume` call, the read channel stays closed, and once the pending
read-interest removal is applied, read interest is never registered again. -/
theorem no_consume_after_stop_reading (s : Sys) (is : List StepInput)
    (hclosed : s.str.readChannelClosed = true) (hri : s.readInterest = false) :
    (∀ n, MgrCall.consume n ∉ (runSteps s is).2) ∧
    (runSteps s is).1.str.readChannelClosed = true ∧
    (runSteps s is).1.readInterest = false ∧
    ∀ t : Sys, (runStep t .stopReadingStep).1.str.readChannelClosed = true := by
  have hstop : ∀ t : Sys,
      (runStep t .stopReadingStep).1.str.readChannelClosed = true := by
    intro t
    show (applyActions { t with str := (stopReading t.str).1 }
      (stopReading t.str).2).str.readChannelClosed = true
    rw [applyActions_closed]
    show (closeReadChannel t.str).readChannelClosed = true
    unfold closeReadChannel
    split_ifs with h
    · exact h
    · rfl
  induction is generalizing s with
  | nil => exact ⟨by simp [runSteps], hclosed, hri, hstop⟩
  | cons i is ih =>
    obtain ⟨h1, h2, h3⟩ := runStep_after_stop s i hclosed hri
    obtain ⟨ih1, ih2, ih3, -⟩ := ih _ h2 h3
    refine ⟨?_, ih2, ih3, hstop⟩
    intro n hn
    rw [runSteps] at hn
    rcases List.mem_append.1 hn with hn | hn
    · exact h1 n hn
    · exact ih1 n hn

/-- Claim C5 witness: a stopped stream fed a read-readiness dispatch, a
flush, and a write emits no `consume`, stays closed, and read interest stays
deregistered. -/
theorem no_consume_after_stop_reading_witness :
    (∀ n, MgrCall.consume n ∉
      (runSteps ⟨{ sampleStream with readChannelClosed := true }, false, false⟩
        [.dispatch 1 (RecvRes.ok 1) (SendRes.ok 0), .flushStep 3,
          .writeStep [5]]).2) ∧
    (runSteps ⟨{ sampleStream with readChannelClosed := true }, false, false⟩
      [.dispatch 1 (RecvRes.ok 1) (SendRes.ok 0), .flushStep 3,
        .writeStep [5]]).1.str.readChannelClosed = true ∧
    (runSteps ⟨{ sampleStream with readChannelClosed := true }, false, false⟩
      [.dispatch 1 (RecvRes.ok 1) (SendRes.ok 0), .flushStep 3,
        .writeStep [5]]).1.readInterest = false :=
  let h := no_consume_after_stop_reading
    ⟨{ sampleStream with readChannelClosed := true }, false, false⟩
    [.dispatch 1 (RecvRes.ok 1) (SendRes.ok 0), .flushStep 3, .writeStep [5]]
    rfl rfl
  ⟨h.1, h.2.1, h.2.2.1⟩

/-- Everything in the spliced table was already registered or sits at the
event's fd. -/
theorem pollApply_mem (e : PollEvent) (t : List PollEntry) (z : PollEntry)
    (hz : z ∈ pollApply e t) : z ∈ t ∨ z.fd = e.fd := by
  induction t with
  | nil =>
    rw [pollApply] at hz
    split_ifs at hz with h
    · rcases List.mem_singleton.1 hz with rfl
      exact Or.inr rfl
    · cases hz
  | cons x xs ih =>
    rw [pollApply] at hz
    split_ifs at hz with h1 h2 h3
    · rcases List.mem_cons.1 hz with rfl | hz'
      · exact Or.inl (List.mem_cons_self _ _)
      · rcases ih hz' with hm | hf
        · exact Or.inl (List.mem_cons_of_mem _ hm)
        · exact Or.inr hf
    · exact Or.inl (List.mem_cons_of_mem _ hz)
    · rcases List.mem_cons.1 hz with rfl | hz'
      · exact Or.inr h2
      · exact Or.inl (List.mem_cons_of_mem _ hz')
    · rcases List.mem_cons.1 hz with rfl | hz'
      · exact Or.inr rfl
      · exact Or.inl hz'

/-- Entries at a different fd survive the splice. -/
theorem pollApply_mem_of_ne (e : PollEvent) (t : List PollEntry) (z : PollEntry)
    (hz : z ∈ t) (hne : z.fd ≠ e.fd) : z ∈ pollApply e t := by
  induction t with
  | nil => cases hz
  | cons x xs ih =>
    rcases List.mem_cons.1 hz with rfl | hz'
    · by_cases h1 : z.fd < e.fd
      · rw [pollApply, if_pos h1]
        exact List.mem_cons_self _ _
      · rw [pollApply, if_neg h1, if_neg hne]
        exact List.mem_cons_of_mem _ (List.mem_cons_self _ _)
    · by_cases h1 : x.fd < e.fd
      · rw [pollApply, if_pos h1]
        exact List.mem_cons_of_mem _ (ih hz')
      · by_cases h2 : x.fd = e.fd
        · rw [pollApply, if_neg h1, if_pos h2]
          by_cases h3 : e.mask = 0
          · rw [if_pos h3]
            exact hz'
          · rw [if_neg h3]
            exact List.mem_cons_of_mem _ hz'
        · rw [pollApply, if_neg h1, if_neg h2]
          exact List.mem_cons_of_mem _ (List.mem_cons_of_mem _ hz')

/-- With a nonzero mask, the committed entry for the event is in the spliced
table (given that any old entry at that fd carries the event's handler). -/
theorem pollApply_mem_new (e : PollEvent) (t : List PollEntry)
    (hm : e.mask ≠ 0) (hptr : ∀ en ∈ t, en.fd = e.fd → en.ptr = e.ptr) :
    (⟨e.fd, e.mask, e.ptr⟩ : PollEntry) ∈ pollApply e t := by
  induction t with
  | nil =>
    rw [pollApply, if_pos hm]
    exact List.mem_singleton.2 rfl
  | cons x xs ih =>
    by_cases h1 : x.fd < e.fd
    · rw [pollApply, if_pos h1]
      exact List.mem_cons_of_mem _
        (ih fun en h hf => hptr en (List.mem_cons_of_mem _ h) hf)
    · by_cases h2 : x.fd = e.fd
      · rw [pollApply, if_neg h1, if_pos h2, if_neg hm]
        have hxp : x.ptr = e.ptr := hptr x (List.mem_cons_self _ _) h2
        rw [h2, hxp]
        exact List.mem_cons_self _ _
      · rw [pollApply, if_neg h1, if_neg h2]
        exact List.mem_cons_self _ _

/-- Inversion for the splice on a sorted table: a member is either an old
entry at a different fd, or the event's committed entry — and the latter can
carry mask 0 only when the event's fd was unregistered. -/
theorem pollApply_mem_inv (e : PollEvent) (t : List PollEntry) (z : PollEntry)
    (hsort : t.Pairwise (fun a b => a.fd < b.fd))
    (hptr : ∀ en ∈ t, en.fd = e.fd → en.ptr = e.ptr)
    (hz : z ∈ pollApply e t) :
    (z ∈ t ∧ z.fd ≠ e.fd) ∨
      (z = ⟨e.fd, e.mask, e.ptr⟩ ∧ (e.mask ≠ 0 ∨ ∀ en ∈ t, en.fd ≠ e.fd)) := by
  induction t with
  | nil =>
    rw [pollApply] at hz
    split_ifs at hz with h
    · exact Or.inr ⟨List.mem_singleton.1 hz, Or.inl h⟩
    · cases hz
  | cons x xs ih =>
    rw [List.pairwise_cons] at hsort
    obtain ⟨hx, hxs⟩ := hsort
    rw [pollApply] at hz
    split_ifs at hz with h1 h2 h3
    · rcases List.mem_cons.1 hz with rfl | hz'
      · exact Or.inl ⟨List.mem_cons_self _ _, by omega⟩
      · rcases ih hxs (fun en h hf => hptr en (List.mem_cons_of_mem _ h) hf) hz'
          with ⟨hm, hne⟩ | ⟨hq, hside⟩
        · exact Or.inl ⟨List.mem_cons_of_mem _ hm, hne⟩
        · refine Or.inr ⟨hq, ?_⟩
          rcases hside with hside | hside
          · exact Or.inl hside
          · refine Or.inr fun en hen => ?_
            rcases List.mem_cons.1 hen with rfl | hen'
            · omega
            · exact hside en hen'
    · have := hx z hz
      exact Or.inl ⟨List.mem_cons_of_mem _ hz, by omega⟩
    · rcases List.mem_cons.1 hz with rfl | hz'
      · have hxp : x.ptr = e.ptr := hptr x (List.mem_cons_self _ _) h2
        exact Or.inr ⟨by rw [h2, hxp], Or.inl h3⟩
      · have := hx z hz'
        exact Or.inl ⟨List.mem_cons_of_mem _ hz', by omega⟩
    · rcases List.mem_cons.1 hz with rfl | hz'
      · refine Or.inr ⟨rfl, Or.inr fun en hen => ?_⟩
        rcases List.mem_cons.1 hen with rfl | hen'
        · omega
        · have := hx en hen'
          omega
      · rcases List.mem_cons.1 hz' with rfl | hz''
        · exact Or.inl ⟨List.mem_cons_self _ _, by omega⟩
        · have := hx z hz''
          exact Or.inl ⟨List.mem_cons_of_mem _ hz'', by omega⟩

/-- The splice keeps the table strictly sorted by fd. -/
theorem pollApply_pairwise (e : PollEvent) (t : List PollEntry)
    (hsort : t.Pairwise (fun a b => a.fd < b.fd)) :
    (pollApply e t).Pairwise (fun a b => a.fd < b.fd) := by
  induction t with
  | nil =>
    rw [pollApply]
    split_ifs
    · exact List.pairwise_singleton _ _
    · exact List.Pairwise.nil
  | cons x xs ih =>
    rw [List.pairwise_cons] at hsort
    obtain ⟨hx, hxs⟩ := hsort
    rw [pollApply]
    split_ifs with h1 h2 h3
    · rw [List.pairwise_cons]
      refine ⟨fun z hz => ?_, ih hxs⟩
      rcases pollApply_mem e xs z hz with hm | hf
      · exact hx z hm
      · rw [hf]; exact h1
    · exact hxs
    · rw [List.pairwise_cons]
      exact ⟨hx, hxs⟩
    · rw [List.pairwise_cons]
      refine ⟨fun z hz => ?_, ?_⟩
      · rcases List.mem_cons.1 hz with rfl | hz'
        · show e.fd < z.fd
          omega
        · have := hx z hz'
          show e.fd < z.fd
          omega
      · rw [List.pairwise_cons]
        exact ⟨hx, hxs⟩

/-- A mask-0 event whose fd is above every registered fd leaves the table
unchanged (the scan falls off the end and the append is skipped). -/
theorem pollApply_below (e : PollEvent) (t : List PollEntry)
    (hall : ∀ en ∈ t, en.fd < e.fd) (hm : e.mask = 0) :
    pollApply e t = t := by
  induction t with
  | nil =>
    rw [pollApply, if_neg (by simp [hm])]
  | cons x xs ih =>
    rw [pollApply, if_pos (hall x (List.mem_cons_self _ _)),
      ih fun en h => hall en (List.mem_cons_of_mem _ h)]

/-- Claim C1 (amended): applying a pending event `(hfd p, mask, p)` preserves
the reactor invariant — the registered table rows carry exactly their
handlers' stored masks, every handler with a nonzero stored mask is
registered, and the stored mask is the last committed one — provided a mask-0
event targets an fd that is registered or above all registered fds; and a
mask-0 event for an fd above all registered fds leaves the table unchanged.
(For a mask-0 event on an unregistered fd *below* some registered fd, the
poll backend inserts an inert zero-mask row instead: see the
counterexample.) -/
theorem reactor_apply_invariant (hfd : Nat → Nat)
    (hinj : Function.Injective hfd) (st : PollState) (e : PollEvent) (p : Nat)
    (hp : e.ptr = some p) (hfdp : e.fd = hfd p) (hInv : PollInv hfd st)
    (hmask : e.mask ≠ 0 ∨ (∃ en ∈ st.table, en.fd = e.fd) ∨
      ∀ en ∈ st.table, en.fd < e.fd) :
    PollInv hfd (pollHandle st e) ∧
    (e.mask = 0 → (∀ en ∈ st.table, en.fd < e.fd) →
      (pollHandle st e).table = st.table) := by
  obtain ⟨hsort, hok, hreg⟩ := hInv
  have hptr : ∀ en ∈ st.table, en.fd = e.fd → en.ptr = e.ptr := by
    intro en hen hef
    obtain ⟨-, q, hq, hqf, -⟩ := hok en hen
    have hqp : q = p := hinj (by rw [hqf, hef, hfdp])
    rw [hq, hqp, hp]
  have hbf : (pollHandle st e).eventbf = Function.update st.eventbf p e.mask := by
    simp [pollHandle, hp]
  have hunch : e.mask = 0 → (∀ en ∈ st.table, en.fd < e.fd) →
      (pollHandle st e).table = st.table :=
    fun hm hall => pollApply_below e st.table hall hm
  refine ⟨⟨pollApply_pairwise e st.table hsort, ?_, ?_⟩, hunch⟩
  · -- EntriesOk
    intro en hen
    rcases pollApply_mem_inv e st.table en hsort hptr hen with
      ⟨hm, hne⟩ | ⟨rfl, hside⟩
    · obtain ⟨hev, q, hq, hqf, hbfq⟩ := hok en hm
      have hqp : q ≠ p := by
        intro h
        rw [h] at hqf
        exact hne (hqf.symm.trans hfdp.symm)
      exact ⟨hev, q, hq, hqf,
        by rw [hbf, Function.update_noteq hqp, hbfq]⟩
    · have hm : e.mask ≠ 0 := by
        rcases hside with h | hnone
        · exact h
        · rcases hmask with h | ⟨en', hen', hef⟩ | hall
          · exact h
          · exact absurd hef (hnone en' hen')
          · intro hm0
            have : (pollHandle st e).table = st.table := hunch hm0 hall
            rw [this] at hen
            exact absurd rfl (hnone _ hen)
      exact ⟨hm, p, hp, hfdp.symm,
        by rw [hbf, Function.update_same]⟩
  · -- RegisteredOk
    intro q hq
    rw [hbf] at hq
    by_cases hqp : q = p
    · subst hqp
      rw [Function.update_same] at hq
      exact ⟨⟨e.fd, e.mask, e.ptr⟩, pollApply_mem_new e st.table hq hptr,
        hp ▸ rfl, hfdp.symm ▸ rfl⟩
    · rw [Function.update_noteq hqp] at hq
      obtain ⟨en, hen, henp, henf⟩ := hreg q hq
      have hne : en.fd ≠ e.fd := by
        intro h
        obtain ⟨-, q', hq', hq'f, -⟩ := hok en hen
        have : q' = q := by
          rw [henp] at hq'
          exact (Option.some_injective _ hq').symm
        subst this
        exact hqp (hinj (by rw [hq'f, h, hfdp]))
      exact ⟨en, pollApply_mem_of_ne e st.table en hen hne, henp, henf⟩

/-- Claim C1 counterexample: from an invariant-satisfying state whose only
registration is fd 7, the pending event `(fd 5, mask 0, handler 1)` — fd 5
unregistered — does *not* leave the registration table unchanged: the poll
backend's final `else` branch inserts an inert zero-mask row for fd 5. -/
theorem reactor_apply_invariant_counterexample :
    PollInv (fun q => 7 - 2 * q) cexPollState ∧
    (pollHandle cexPollState ⟨5, 0, some 1⟩).table ≠ cexPollState.table := by
  refine ⟨⟨?_, ?_, ?_⟩, by decide⟩
  · exact List.pairwise_singleton _ _
  · intro en hen
    rcases List.mem_singleton.1 hen with rfl
    exact ⟨by decide, 0, rfl, rfl, rfl⟩
  · intro q hq
    by_cases h : q = 0
    · subst h
      exact ⟨⟨7, 1, some 0⟩, List.mem_singleton.2 rfl, rfl, rfl⟩
    · exact absurd (by simp [cexPollState, h]) hq

/-- Claim C1 witness: registering a fresh handler (fd 5, mask 1) in the empty
reactor preserves the invariant. -/
theorem reactor_apply_invariant_witness :
    PollInv id (pollHandle ⟨[], fun _ => 0⟩ ⟨5, 1, some 5⟩) :=
  (reactor_apply_invariant id Function.injective_id ⟨[], fun _ => 0⟩
    ⟨5, 1, some 5⟩ 5 rfl rfl
    ⟨List.Pairwise.nil, fun en hen => absurd hen (List.not_mem_nil en),
      fun _ hp => absurd rfl hp⟩
    (Or.inl (by decide))).1

end Caf
